import Mathlib

set_option autoImplicit false

namespace SlackLists

/-- JSON-like values, the dynamic value universe of the Python client.
Python ints and floats are both modelled as rationals (`num`), matching
Python's cross-type numeric equality; dictionaries are insertion-ordered
association lists, matching Python 3 dict semantics. -/
inductive JVal where
  | null
  | bool (b : Bool)
  | num (q : ℚ)
  | str (s : String)
  | arr (elems : List JVal)
  | obj (entries : List (String × JVal))
  deriving Repr

mutual

/-- Structural equality on `JVal`, modelling Python's `==` on JSON-like data
(ints and floats compare by numeric value, which `num : ℚ` captures). -/
def jvalBeq : JVal → JVal → Bool
  | .null, .null => true
  | .bool a, .bool b => a == b
  | .num a, .num b => a == b
  | .str a, .str b => a == b
  | .arr xs, .arr ys => jlistBeq xs ys
  | .obj xs, .obj ys => jobjBeq xs ys
  | _, _ => false

/-- Elementwise `==` on Python lists. -/
def jlistBeq : List JVal → List JVal → Bool
  | [], [] => true
  | x :: xs, y :: ys => jvalBeq x y && jlistBeq xs ys
  | _, _ => false

/-- `==` on Python dicts. Python dict equality ignores insertion order, but
every dict this client compares is built in a canonical key order, so
ordered comparison coincides with Python's on the values that occur. -/
def jobjBeq : List (String × JVal) → List (String × JVal) → Bool
  | [], [] => true
  | (k1, v1) :: xs, (k2, v2) :: ys => k1 == k2 && jvalBeq v1 v2 && jobjBeq xs ys
  | _, _ => false

end

/-- A Python dict with string keys, in insertion order. -/
abbrev Obj := List (String × JVal)

/-- `d.get(k)`: first binding of `k`, if any. -/
def assocGet (k : String) : Obj → Option JVal
  | [] => none
  | (k', v) :: rest => if k' = k then some v else assocGet k rest

/-- `d[k] = v`: replace the value at `k` in place if the key is present
(Python dicts keep the original insertion position), else append. -/
def assocSet (k : String) (v : JVal) : Obj → Obj
  | [] => [(k, v)]
  | (k', v') :: rest =>
      if k' = k then (k', v) :: rest else (k', v') :: assocSet k v rest

/-- `d.pop(k)`: remove the binding of `k`. -/
def assocPop (k : String) : Obj → Obj
  | [] => []
  | (k', v') :: rest =>
      if k' = k then rest else (k', v') :: assocPop k rest

/-- `k in d`. -/
def assocHas (k : String) (d : Obj) : Bool :=
  (assocGet k d).isSome

/-- `isinstance(v, list)`. -/
def JVal.isArr : JVal → Bool
  | .arr _ => true
  | _ => false

/-- `isinstance(v, str)`. -/
def JVal.isStr : JVal → Bool
  | .str _ => true
  | _ => false

/-- Python `str()` on the values this client feeds to it. Strings pass
through verbatim (the only case the repository's text conversion exercises
with well-typed input); the remaining renderings follow Python's spelling,
with numeric formatting approximated by the rational's decimal form. -/
def pyStr : JVal → String
  | .null => "None"
  | .bool b => if b then "True" else "False"
  | .num q => toString q
  | .str s => s
  | .arr _ => "[...]"
  | .obj _ => "{...}"

/-- `array_field_types` from `SlackListsClient._normalize_fields`, in source
order. -/
def arrayFieldTypes : List String :=
  ["select", "user", "date", "number", "email", "phone", "attachment",
   "message", "rating", "timestamp", "channel", "reference", "vote", "canvas"]

/-- One iteration of the wrapping loop in `_normalize_fields`: if the field
has key `t` with a non-list value, replace it by a one-element list. -/
def wrapStep (t : String) (f : Obj) : Obj :=
  match assocGet t f with
  | some v => if v.isArr then f else assocSet t (JVal.arr [v]) f
  | none => f

/-- The `for field_type in array_field_types` loop, applied left to right. -/
def wrapList : List String → Obj → Obj
  | [], f => f
  | t :: ts, f => wrapList ts (wrapStep t f)

/-- The rich_text block structure `_normalize_fields` builds for a plain
`text` value. -/
def richTextOf (s : String) : JVal :=
  .arr [.obj [("type", .str "rich_text"),
              ("elements", .arr [.obj
                [("type", .str "rich_text_section"),
                 ("elements", .arr [.obj
                   [("type", .str "text"), ("text", .str s)]])]])]]

/-- The `text` → `rich_text` conversion step of `_normalize_fields`:
only fires when `text` is present and `rich_text` is absent; pops `text`
and appends `rich_text`. -/
def textStep (f : Obj) : Obj :=
  if assocHas "text" f && !assocHas "rich_text" f then
    match assocGet "text" f with
    | some v => assocSet "rich_text" (richTextOf (pyStr v)) (assocPop "text" f)
    | none => f
  else f

/-- Normalization of one element of a `link` array: strings become
`{"original_url": url}` objects, everything else passes through. -/
def linkElem : JVal → JVal
  | .str s => .obj [("original_url", .str s)]
  | v => v

/-- The `link` handling step of `_normalize_fields`. -/
def linkStep (f : Obj) : Obj :=
  match assocGet "link" f with
  | none => f
  | some (.str s) => assocSet "link" (.arr [.obj [("original_url", .str s)]]) f
  | some (.obj kvs) => assocSet "link" (.arr [.obj kvs]) f
  | some (.arr xs) => assocSet "link" (.arr (xs.map linkElem)) f
  | some _ => f

/-- `SlackListsClient._normalize_fields` on a single field: array-type
wrapping, then text conversion, then link formatting, on a copy of the
input. -/
def normalizeField (f : Obj) : Obj :=
  linkStep (textStep (wrapList arrayFieldTypes f))

/-- `SlackListsClient._normalize_fields`. -/
def normalizeFields (fs : List Obj) : List Obj :=
  fs.map normalizeField

theorem assocGet_set_self (k : String) (v : JVal) (d : Obj) :
    assocGet k (assocSet k v d) = some v := by
  induction d with
  | nil => simp [assocSet, assocGet]
  | cons p rest ih =>
    obtain ⟨k', v'⟩ := p
    by_cases h : k' = k
    · simp [assocSet, assocGet, h]
    · simp [assocSet, assocGet, h, ih]

theorem assocGet_set_ne (k t : String) (v : JVal) (d : Obj) (h : t ≠ k) :
    assocGet k (assocSet t v d) = assocGet k d := by
  induction d with
  | nil => simp [assocSet, assocGet, h]
  | cons p rest ih =>
    obtain ⟨k', v'⟩ := p
    by_cases h1 : k' = t
    · subst h1
      simp [assocSet, assocGet, h]
    · by_cases h2 : k' = k <;> simp [assocSet, assocGet, h1, h2, ih, Ne.symm h]

theorem assocGet_pop_ne (k t : String) (d : Obj) (h : t ≠ k) :
    assocGet k (assocPop t d) = assocGet k d := by
  induction d with
  | nil => simp [assocPop]
  | cons p rest ih =>
    obtain ⟨k', v'⟩ := p
    by_cases h1 : k' = t
    · subst h1
      simp [assocPop, assocGet, h]
    · by_cases h2 : k' = k <;> simp [assocPop, assocGet, h1, h2, ih, Ne.symm h]

theorem assocGet_eq_none_of_not_mem (k : String) (d : Obj)
    (h : k ∉ d.map Prod.fst) : assocGet k d = none := by
  induction d with
  | nil => rfl
  | cons p rest ih =>
    obtain ⟨k', v'⟩ := p
    simp only [List.map_cons, List.mem_cons] at h
    push_neg at h
    have hne : ¬k' = k := fun hh => h.1 hh.symm
    simp [assocGet, hne, ih h.2]

theorem assocGet_pop_self (k : String) (d : Obj)
    (hnd : (d.map Prod.fst).Nodup) : assocGet k (assocPop k d) = none := by
  induction d with
  | nil => rfl
  | cons p rest ih =>
    obtain ⟨k', v'⟩ := p
    simp only [List.map_cons, List.nodup_cons] at hnd
    by_cases h1 : k' = k
    · subst h1
      simpa [assocPop] using assocGet_eq_none_of_not_mem k' rest hnd.1
    · simp [assocPop, assocGet, h1, ih hnd.2]

theorem assocSet_keys_of_isSome (k : String) (v : JVal) (d : Obj)
    (h : (assocGet k d).isSome) :
    (assocSet k v d).map Prod.fst = d.map Prod.fst := by
  induction d with
  | nil => simp [assocGet] at h
  | cons p rest ih =>
    obtain ⟨k', v'⟩ := p
    by_cases h1 : k' = k
    · simp [assocSet, h1]
    · simp only [assocGet, if_neg h1] at h
      simp [assocSet, h1, ih h]

theorem wrapStep_keys (t : String) (f : Obj) :
    (wrapStep t f).map Prod.fst = f.map Prod.fst := by
  unfold wrapStep
  cases h : assocGet t f with
  | none => rfl
  | some v =>
    by_cases ha : v.isArr
    · simp [ha]
    · simp only [ha, Bool.false_eq_true, if_false]
      exact assocSet_keys_of_isSome t _ f (by simp [h])

theorem wrapList_keys (ts : List String) (f : Obj) :
    (wrapList ts f).map Prod.fst = f.map Prod.fst := by
  induction ts generalizing f with
  | nil => rfl
  | cons t ts ih => simp [wrapList, ih, wrapStep_keys]

theorem assocGet_wrapStep_ne (k t : String) (f : Obj) (h : t ≠ k) :
    assocGet k (wrapStep t f) = assocGet k f := by
  unfold wrapStep
  cases hg : assocGet t f with
  | none => rfl
  | some v =>
    by_cases ha : v.isArr
    · simp [ha]
    · simp [ha, assocGet_set_ne k t _ f h]

theorem assocGet_wrapStep_self (t : String) (f : Obj) (v : JVal)
    (h : assocGet t f = some v) :
    assocGet t (wrapStep t f) = some (if v.isArr then v else .arr [v]) := by
  unfold wrapStep
  rw [h]
  by_cases ha : v.isArr
  · simp [ha, h]
  · simp [ha, assocGet_set_self]

theorem assocGet_wrapList_not_mem (ts : List String) (t : String) (f : Obj)
    (h : t ∉ ts) : assocGet t (wrapList ts f) = assocGet t f := by
  induction ts generalizing f with
  | nil => rfl
  | cons t' ts ih =>
    simp only [List.mem_cons] at h
    push_neg at h
    rw [wrapList, ih _ h.2, assocGet_wrapStep_ne t t' f (fun hh => h.1 hh.symm)]

theorem assocGet_wrapList_arr (ts : List String) (t : String) (f : Obj)
    (v : JVal) (hv : assocGet t f = some v) (ha : v.isArr = true) :
    assocGet t (wrapList ts f) = some v := by
  induction ts generalizing f with
  | nil => exact hv
  | cons t' ts ih =>
    by_cases h1 : t' = t
    · subst h1
      refine ih _ ?_
      rw [assocGet_wrapStep_self t' f v hv, ha, if_pos rfl]
    · rw [wrapList]
      exact ih _ (by rw [assocGet_wrapStep_ne t t' f h1, hv])

theorem assocGet_wrapList_mem (ts : List String) (t : String) :
    ∀ (f : Obj) (v : JVal), t ∈ ts → assocGet t f = some v →
      assocGet t (wrapList ts f) = some (if v.isArr then v else .arr [v]) := by
  induction ts with
  | nil => intro f v ht hv; cases ht
  | cons t' ts ih =>
    intro f v ht hv
    by_cases h1 : t' = t
    · subst h1
      rw [wrapList]
      by_cases ha : v.isArr
      · simp only [ha, if_true]
        exact assocGet_wrapList_arr ts t' _ v
          (by rw [assocGet_wrapStep_self t' f v hv, ha, if_pos rfl]) ha
      · simp only [ha, Bool.false_eq_true, if_false]
        refine assocGet_wrapList_arr ts t' _ (.arr [v]) ?_ rfl
        rw [assocGet_wrapStep_self t' f v hv]
        simp [ha]
    · have hmem : t ∈ ts := by
        rcases List.mem_cons.mp ht with h2 | h2
        · exact absurd h2.symm h1
        · exact h2
      rw [wrapList]
      exact ih _ v hmem (by rw [assocGet_wrapStep_ne t t' f h1, hv])

theorem assocGet_textStep_ne (k : String) (f : Obj) (h1 : k ≠ "text")
    (h2 : k ≠ "rich_text") : assocGet k (textStep f) = assocGet k f := by
  unfold textStep
  by_cases hc : (assocHas "text" f && !assocHas "rich_text" f) = true
  · rw [if_pos hc]
    cases hg : assocGet "text" f with
    | none => rfl
    | some v =>
      rw [assocGet_set_ne k "rich_text" _ _ (fun hh => h2 hh.symm),
        assocGet_pop_ne k "text" f (fun hh => h1 hh.symm)]
  · rw [if_neg hc]

theorem assocGet_linkStep_ne (k : String) (f : Obj) (h : k ≠ "link") :
    assocGet k (linkStep f) = assocGet k f := by
  unfold linkStep
  cases hg : assocGet "link" f with
  | none => rfl
  | some v =>
    cases v <;>
      simp [assocGet_set_ne k "link" _ f (fun hh => h hh.symm)]

/-- None of the array-typed tags collides with the keys given special
treatment later in `_normalize_fields`. -/
theorem arrayTag_ne_special :
    ∀ t ∈ arrayFieldTypes, t ≠ "text" ∧ t ≠ "rich_text" ∧ t ≠ "link" := by
  decide

/-- A Python number: an `int` or a `float` (floats abstracted as exact
rationals; no rounding behaviour of the repository is at stake). -/
inductive PyNum where
  | int (n : ℤ)
  | float (q : ℚ)
  deriving Repr, DecidableEq

/-- Python's `float()` on a number: ints are coerced, floats pass through. -/
def pyFloat : PyNum → PyNum
  | .int n => .float n
  | .float q => .float q

/-- `helpers.make_number`: a scalar `int | float` is coerced and wrapped in
a one-element list; a list is coerced elementwise. -/
def makeNumber : PyNum ⊕ List PyNum → List PyNum
  | .inl n => [pyFloat n]
  | .inr ns => ns.map pyFloat

/-- C1 (counterexample): a field that carries a `text` key **and** a
`rich_text` key is left untouched by `_normalize_fields` — `text` is still
present afterwards, contradicting the claim that every field containing a
`text` key normalizes to one with `text` absent. -/
theorem text_with_rich_text_counterexample :
    assocGet "text"
        [("column_id", JVal.str "Col1"), ("text", JVal.str "X"),
         ("rich_text", JVal.arr [])] = some (JVal.str "X") ∧
    assocGet "text"
        (normalizeField
          [("column_id", JVal.str "Col1"), ("text", JVal.str "X"),
           ("rich_text", JVal.arr [])]) = some (JVal.str "X") := by
  constructor <;> rfl

/-- C1 (amended): for every input field that contains a `text` key holding
the string `s` and does **not** already contain a `rich_text` key,
`_normalize_fields` yields a field with `rich_text` present and `text`
absent, and the `rich_text` value is one block of type "rich_text"
containing one rich_text_section containing one text leaf whose text is
exactly `s`. -/
theorem normalize_text_conversion (f : Obj) (s : String)
    (hnd : (f.map Prod.fst).Nodup)
    (htext : assocGet "text" f = some (.str s))
    (hrt : assocGet "rich_text" f = none) :
    assocGet "text" (normalizeField f) = none ∧
    assocGet "rich_text" (normalizeField f) =
      some (.arr [.obj [("type", .str "rich_text"),
        ("elements", .arr [.obj
          [("type", .str "rich_text_section"),
           ("elements", .arr [.obj
             [("type", .str "text"), ("text", .str s)]])]])]]) := by
  have hw_text : assocGet "text" (wrapList arrayFieldTypes f) = some (.str s) := by
    rw [assocGet_wrapList_not_mem _ _ _ (by decide), htext]
  have hw_rt : assocGet "rich_text" (wrapList arrayFieldTypes f) = none := by
    rw [assocGet_wrapList_not_mem _ _ _ (by decide), hrt]
  have hw_nd : ((wrapList arrayFieldTypes f).map Prod.fst).Nodup := by
    rw [wrapList_keys]; exact hnd
  have hts : textStep (wrapList arrayFieldTypes f) =
      assocSet "rich_text" (richTextOf s)
        (assocPop "text" (wrapList arrayFieldTypes f)) := by
    unfold textStep
    rw [if_pos (by simp [assocHas, hw_text, hw_rt]), hw_text]
    rfl
  constructor
  · rw [normalizeField, assocGet_linkStep_ne _ _ (by decide), hts,
      assocGet_set_ne _ _ _ _ (by decide),
      assocGet_pop_self _ _ hw_nd]
  · rw [normalizeField, assocGet_linkStep_ne _ _ (by decide), hts,
      assocGet_set_self]
    rfl

/-- C1 witness: the amended theorem applied to the concrete field
`{"column_id": "Col1", "text": "Hello"}`. -/
theorem normalize_text_conversion_witness :
    assocGet "text"
        (normalizeField [("column_id", JVal.str "Col1"),
                         ("text", JVal.str "Hello")]) = none ∧
    assocGet "rich_text"
        (normalizeField [("column_id", JVal.str "Col1"),
                         ("text", JVal.str "Hello")]) =
      some (.arr [.obj [("type", .str "rich_text"),
        ("elements", .arr [.obj
          [("type", .str "rich_text_section"),
           ("elements", .arr [.obj
             [("type", .str "text"), ("text", .str "Hello")]])]])]]) :=
  normalize_text_conversion
    [("column_id", JVal.str "Col1"), ("text", JVal.str "Hello")] "Hello"
    (by decide) (by rfl) (by rfl)

/-- C2: for every field whose value key is one of the array-typed tags, a
non-array value normalizes to the one-element array holding it unchanged,
and an array value passes through with identical elements in identical
order (no deduplication, no reordering); the numeric helper
`make_number` coerces a scalar into a one-element float array and maps a
list elementwise, preserving length and order. -/
theorem arrayTag_normalization :
    (∀ t ∈ arrayFieldTypes, ∀ (f : Obj) (v : JVal),
        assocGet t f = some v → v.isArr = false →
        assocGet t (normalizeField f) = some (.arr [v])) ∧
    (∀ t ∈ arrayFieldTypes, ∀ (f : Obj) (xs : List JVal),
        assocGet t f = some (.arr xs) →
        assocGet t (normalizeField f) = some (.arr xs)) ∧
    (∀ n : PyNum, makeNumber (Sum.inl n) = [pyFloat n]) ∧
    (∀ (ns : List PyNum), (makeNumber (Sum.inr ns)).length = ns.length ∧
        ∀ i : ℕ, (makeNumber (Sum.inr ns))[i]? = (ns[i]?).map pyFloat) := by
  refine ⟨?_, ?_, fun n => rfl, ?_⟩
  · intro t ht f v hv ha
    obtain ⟨h1, h2, h3⟩ := arrayTag_ne_special t ht
    rw [normalizeField, assocGet_linkStep_ne _ _ h3, assocGet_textStep_ne _ _ h1 h2,
      assocGet_wrapList_mem arrayFieldTypes t f v ht hv, ha]
    rfl
  · intro t ht f xs hv
    obtain ⟨h1, h2, h3⟩ := arrayTag_ne_special t ht
    rw [normalizeField, assocGet_linkStep_ne _ _ h3, assocGet_textStep_ne _ _ h1 h2,
      assocGet_wrapList_arr arrayFieldTypes t f (.arr xs) hv rfl]
  · intro ns
    refine ⟨by simp [makeNumber], fun i => by simp [makeNumber]⟩

/-- C2 witness: the scalar and array branches evaluated on concrete
fields (a scalar `select`, an already-array `user`, and concrete numeric
inputs to `make_number`). -/
theorem arrayTag_normalization_witness :
    assocGet "select"
        (normalizeField [("column_id", JVal.str "Col1"),
                         ("select", JVal.str "OptA")]) =
      some (.arr [JVal.str "OptA"]) ∧
    assocGet "user"
        (normalizeField [("column_id", JVal.str "Col1"),
                         ("user", JVal.arr [JVal.str "U2", JVal.str "U1"])]) =
      some (.arr [JVal.str "U2", JVal.str "U1"]) ∧
    makeNumber (Sum.inl (PyNum.int 42)) = [PyNum.float 42] ∧
    (makeNumber (Sum.inr [PyNum.int 3, PyNum.float (1/2)])).length = 2 :=
  ⟨arrayTag_normalization.1 "select" (by decide) _ _ (by rfl) rfl,
   arrayTag_normalization.2.1 "user" (by decide) _ _ (by rfl),
   arrayTag_normalization.2.2.1 (PyNum.int 42),
   (arrayTag_normalization.2.2.2 [PyNum.int 3, PyNum.float (1/2)]).1⟩

/-- `RETRYABLE_ERRORS` from slack_client.py. -/
def RETRYABLE_ERRORS : List String :=
  ["rate_limited", "service_unavailable", "internal_error", "request_timeout"]

/-- A `SlackApiError` as the retry wrapper sees it: the error code read
from the response, the parsed `Retry-After` header when present and
non-empty, and the rest of the response carried along to the raiser. -/
structure SlackErr where
  code : String
  retryAfter : Option ℚ
  body : JVal
  deriving Repr

/-- Outcome of one attempt of `self.client.api_call`. -/
inductive CallResult where
  | ok (resp : JVal)
  | err (e : SlackErr)
  deriving Repr

/-- The delay computed inside `_call_with_retry` for a retryable failure at
a given 0-indexed attempt: `base_delay * 2 ** attempt`, raised to the
`Retry-After` hint for `rate_limited` errors carrying one. -/
def backoffDelay (attempt : ℕ) (e : SlackErr) : ℚ :=
  let baseDelay : ℚ := 1
  let delay := baseDelay * 2 ^ attempt
  if e.code = "rate_limited" then
    match e.retryAfter with
    | some r => max delay r
    | none => delay
  else delay

/-- Result of the whole retry loop: a response, a raised error, or the
post-loop path (dead code in the source: `raise RuntimeError(...)`).
`attempts` counts how many API calls were issued; `delays` records every
sleep performed, in order. -/
inductive RetryOutcome where
  | success (resp : JVal) (attempts : ℕ) (delays : List ℚ)
  | failure (e : SlackErr) (attempts : ℕ) (delays : List ℚ)
  | loopExit (delays : List ℚ)
  deriving Repr

/-- The `for attempt in range(self.retry_count + 1)` loop of
`_call_with_retry`, with the attempt-indexed call outcomes supplied by
`script`. `fuel` is the number of loop iterations left. -/
def callAux (script : ℕ → CallResult) (retryCount : ℕ) :
    ℕ → ℕ → List ℚ → RetryOutcome
  | 0, _, delays => .loopExit delays
  | fuel + 1, attempt, delays =>
    match script attempt with
    | .ok resp => .success resp (attempt + 1) delays
    | .err e =>
      if e.code ∈ RETRYABLE_ERRORS ∧ attempt < retryCount then
        callAux script retryCount fuel (attempt + 1)
          (delays ++ [backoffDelay attempt e])
      else .failure e (attempt + 1) delays

/-- `SlackListsClient._call_with_retry`. -/
def callWithRetry (retryCount : ℕ) (script : ℕ → CallResult) : RetryOutcome :=
  callAux script retryCount (retryCount + 1) 0 []

theorem callAux_all_retryable (script : ℕ → CallResult) (rc : ℕ)
    (errs : ℕ → SlackErr)
    (hfail : ∀ k, k ≤ rc → script k = .err (errs k))
    (hretry : ∀ k, k ≤ rc → (errs k).code ∈ RETRYABLE_ERRORS) :
    ∀ (fuel attempt : ℕ) (delays : List ℚ), fuel + attempt = rc + 1 →
      attempt ≤ rc →
      callAux script rc fuel attempt delays =
        .failure (errs rc) (rc + 1)
          (delays ++ (List.range' attempt (rc - attempt)).map
            (fun k => backoffDelay k (errs k))) := by
  intro fuel
  induction fuel with
  | zero => intro attempt delays hsum hle; omega
  | succ fuel ih =>
    intro attempt delays hsum hle
    simp only [callAux, hfail attempt hle]
    by_cases hlt : attempt < rc
    · rw [if_pos ⟨hretry attempt hle, hlt⟩,
        ih (attempt + 1) _ (by omega) (by omega)]
      have hn : rc - attempt = (rc - (attempt + 1)) + 1 := by omega
      rw [hn, List.range'_succ, List.map_cons, List.append_assoc,
        List.singleton_append]
    · have ha : attempt = rc := by omega
      subst ha
      rw [if_neg (by simp [hlt]), Nat.sub_self]
      simp

/-- Upper bound on the attempt counter recorded in a loop outcome. -/
def RetryOutcome.attemptsLe : RetryOutcome → ℕ → Prop
  | .success _ a _, n => a ≤ n
  | .failure _ a _, n => a ≤ n
  | .loopExit _, _ => True

/-- Every run of the retry loop issues at most `attempt + fuel` calls. -/
theorem callAux_attempts_le (script : ℕ → CallResult) (rc : ℕ) :
    ∀ (fuel attempt : ℕ) (delays : List ℚ),
      (callAux script rc fuel attempt delays).attemptsLe (attempt + fuel) := by
  intro fuel
  induction fuel with
  | zero =>
    intro attempt delays
    simp [callAux, RetryOutcome.attemptsLe]
  | succ fuel ih =>
    intro attempt delays
    rw [callAux]
    cases hs : script attempt with
    | ok resp =>
      simp only [RetryOutcome.attemptsLe]
      omega
    | err e =>
      dsimp only
      by_cases hc : e.code ∈ RETRYABLE_ERRORS ∧ attempt < rc
      · rw [if_pos hc]
        have h := ih (attempt + 1) (delays ++ [backoffDelay attempt e])
        have harith : attempt + 1 + fuel = attempt + (fuel + 1) := by omega
        rw [harith] at h
        exact h
      · rw [if_neg hc]
        simp only [RetryOutcome.attemptsLe]
        omega

/-- The delay formula, written as the spec states it: `2^attempt`, raised
to the hint for a hinted rate_limited failure. -/
theorem backoffDelay_formula (k : ℕ) (e : SlackErr) :
    backoffDelay k e =
      if e.code = "rate_limited" then
        match e.retryAfter with
        | some r => max ((2 : ℚ) ^ k) r
        | none => (2 : ℚ) ^ k
      else (2 : ℚ) ^ k := by
  simp only [backoffDelay, one_mul]

/-- C3: for `rc + 1` consecutive retryable failures, the recorded sleep
before the k-th retry (k = 0 … rc-1, 0-indexed) is exactly `2^k` seconds,
except that a `rate_limited` failure carrying a Retry-After hint sleeps
`max (2^k) hint`. -/
theorem backoff_delay_sequence (rc : ℕ) (script : ℕ → CallResult)
    (errs : ℕ → SlackErr)
    (hfail : ∀ k, k ≤ rc → script k = .err (errs k))
    (hretry : ∀ k, k ≤ rc → (errs k).code ∈ RETRYABLE_ERRORS) :
    callWithRetry rc script =
      .failure (errs rc) (rc + 1)
        ((List.range rc).map (fun k =>
          if (errs k).code = "rate_limited" then
            match (errs k).retryAfter with
            | some r => max ((2 : ℚ) ^ k) r
            | none => (2 : ℚ) ^ k
          else (2 : ℚ) ^ k)) := by
  have h := callAux_all_retryable script rc errs hfail hretry (rc + 1) 0 []
    (by omega) (by omega)
  rw [callWithRetry, h, Nat.sub_zero, List.nil_append,
    ← List.range_eq_range']
  have hfun : (fun k => backoffDelay k (errs k)) =
      (fun k =>
        if (errs k).code = "rate_limited" then
          match (errs k).retryAfter with
          | some r => max ((2 : ℚ) ^ k) r
          | none => (2 : ℚ) ^ k
        else (2 : ℚ) ^ k) :=
    funext fun k => backoffDelay_formula k (errs k)
  rw [hfun]

/-- C3 witness: with `retry_count = 2` the loop sleeps exactly 1s then 2s
before raising the third consecutive `internal_error`. -/
theorem backoff_delay_sequence_witness :
    callWithRetry 2 (fun _ => .err ⟨"internal_error", none, JVal.null⟩) =
      .failure ⟨"internal_error", none, JVal.null⟩ 3 [(1 : ℚ), 2] := by
  have h := backoff_delay_sequence 2
    (fun _ => .err ⟨"internal_error", none, JVal.null⟩)
    (fun _ => ⟨"internal_error", none, JVal.null⟩)
    (fun k _ => rfl)
    (fun k _ => by show "internal_error" ∈ RETRYABLE_ERRORS; decide)
  rw [h]
  norm_num [List.range_succ]

/-- C4: the retry wrapper issues at most `retry_count + 1` calls however it
ends; when every attempt fails retryably it raises the error received on
the last attempt having used exactly `retry_count + 1` attempts; and a
non-retryable first error is propagated at once, after exactly one call
and no sleeping. -/
theorem retry_budget_and_propagation (rc : ℕ) (script : ℕ → CallResult) :
    (∀ (r : JVal) (a : ℕ) (d : List ℚ),
        callWithRetry rc script = .success r a d → a ≤ rc + 1) ∧
    (∀ (e : SlackErr) (a : ℕ) (d : List ℚ),
        callWithRetry rc script = .failure e a d → a ≤ rc + 1) ∧
    (∀ (errs : ℕ → SlackErr),
        (∀ k, k ≤ rc → script k = .err (errs k)) →
        (∀ k, k ≤ rc → (errs k).code ∈ RETRYABLE_ERRORS) →
        ∃ d, callWithRetry rc script = .failure (errs rc) (rc + 1) d) ∧
    (∀ (e : SlackErr), script 0 = .err e → e.code ∉ RETRYABLE_ERRORS →
        callWithRetry rc script = .failure e 1 []) := by
  refine ⟨?_, ?_, ?_, ?_⟩
  · intro r a d h
    have H := callAux_attempts_le script rc (rc + 1) 0 []
    rw [show callAux script rc (rc + 1) 0 [] = callWithRetry rc script from rfl,
      h] at H
    simpa [RetryOutcome.attemptsLe] using H
  · intro e a d h
    have H := callAux_attempts_le script rc (rc + 1) 0 []
    rw [show callAux script rc (rc + 1) 0 [] = callWithRetry rc script from rfl,
      h] at H
    simpa [RetryOutcome.attemptsLe] using H
  · intro errs hfail hretry
    exact ⟨_, callAux_all_retryable script rc errs hfail hretry (rc + 1) 0 []
      (by omega) (by omega)⟩
  · intro e h0 hne
    rw [callWithRetry]
    simp only [callAux, h0]
    rw [if_neg (fun hc => hne hc.1)]

/-- C4 witness: a non-retryable `invalid_auth` on the first attempt is
raised immediately, after one call and no sleeps, under a budget of 3
retries. -/
theorem retry_budget_and_propagation_witness :
    callWithRetry 3 (fun _ => .err ⟨"invalid_auth", none, JVal.null⟩) =
      .failure ⟨"invalid_auth", none, JVal.null⟩ 1 [] :=
  (retry_budget_and_propagation 3
      (fun _ => .err ⟨"invalid_auth", none, JVal.null⟩)).2.2.2
    ⟨"invalid_auth", none, JVal.null⟩ rfl (by decide)

/-- ASCII-level model of Python's `str.lower()`. -/
def pyLower (s : String) : String :=
  String.map Char.toLower s

/-- Whether `needle` occurs contiguously at the head of `hay`. -/
def leadMatch : List Char → List Char → Bool
  | [], _ => true
  | _ :: _, [] => false
  | n :: ns, h :: hs => n == h && leadMatch ns hs

/-- Python's substring test `needle in hay` on strings. -/
def subSearch (needle : List Char) : List Char → Bool
  | [] => leadMatch needle []
  | h :: hs => leadMatch needle (h :: hs) || subSearch needle hs

/-- `needle in hay` for Python strings. -/
def strIn (needle hay : String) : Bool :=
  subSearch needle.toList hay.toList

/-- The value-slot priority order of `_extract_field_value`, in source
order. -/
def extractPriority : List String :=
  ["checkbox", "select", "user", "date", "text", "number", "email", "phone",
   "attachment", "link", "message", "rating", "timestamp", "channel",
   "reference", "vote", "canvas", "rich_text", "value"]

/-- First present slot of `extractPriority`, else `None`. -/
def extractBySlots : List String → Obj → JVal
  | [], _ => .null
  | k :: ks, field =>
    match assocGet k field with
    | some v => v
    | none => extractBySlots ks field

/-- `SlackListsClient._extract_field_value`. -/
def extractFieldValue (field : Obj) : JVal :=
  extractBySlots extractPriority field

/-- `SlackListsClient._values_equal`: a one-element list is compared by
its sole element, anything else compares directly (Python `==`). -/
def valuesEqual (value expected : JVal) : Bool :=
  match value with
  | .arr [x] => jvalBeq x expected
  | _ => jvalBeq value expected

/-- `SlackListsClient._value_contains`: case-insensitive substring test;
`None` never contains; arrays test any element's stringified form. -/
def valueContains (value : JVal) (search : String) : Bool :=
  match value with
  | .null => false
  | .str s => strIn (pyLower search) (pyLower s)
  | .arr xs => xs.any (fun v => strIn (pyLower search) (pyLower (pyStr v)))
  | v => strIn (pyLower search) (pyLower (pyStr v))

/-- `SlackListsClient._value_in_list`: an array value matches when any of
its elements is a member of the expected list, a scalar when it is itself
a member. -/
def valueInList (value : JVal) (expectedList : List JVal) : Bool :=
  match value with
  | .arr xs => xs.any (fun v => expectedList.any (fun e => jvalBeq v e))
  | v => expectedList.any (fun e => jvalBeq v e)

/-- A filter condition: operator name → expected value, in dict order. -/
abbrev Cond := List (String × JVal)

/-- The needle of a `contains` test: must be a Python `str`, anything else
makes `search.lower()` raise. -/
def strArg : JVal → Option String
  | .str s => some s
  | _ => none

/-- The operand of an `in` test: must be a list for `_value_in_list`'s
membership tests; anything else raises. -/
def listArg : JVal → Option (List JVal)
  | .arr l => some l
  | _ => none

/-- One operator of `_apply_filter_condition`: `some true` means the value
passes this operator (or the operator is unrecognized and is skipped),
`some false` means the condition fails, `none` models a raised `TypeError`
(a non-string `contains` needle or a non-list `in` operand). -/
def condStep (value : JVal) (op : String) (expected : JVal) : Option Bool :=
  if op = "equals" then some (valuesEqual value expected)
  else if op = "not_equals" then some (!valuesEqual value expected)
  else if op = "contains" then
    (strArg expected).map (fun s => valueContains value s)
  else if op = "not_contains" then
    (strArg expected).map (fun s => !valueContains value s)
  else if op = "in" then
    (listArg expected).map (fun l => valueInList value l)
  else if op = "not_in" then
    (listArg expected).map (fun l => !valueInList value l)
  else some true

/-- The operator loop of `_apply_filter_condition`: any failing operator
returns `False` at once, a raised error propagates, and a condition whose
operators all pass (or are all skipped, or is empty) yields `True`. -/
def applyCondList (value : JVal) : Cond → Option Bool
  | [] => some true
  | (op, expected) :: rest =>
    match condStep value op expected with
    | some true => applyCondList value rest
    | some false => some false
    | none => none

/-- `SlackListsClient._apply_filter_condition`. -/
def applyFilterCondition (value : JVal) (condition : Cond) : Option Bool :=
  applyCondList value condition

/-- Does this field's `column_id` or `key` equal the filter key?
(Python compares with `==` against the string key.) -/
def fieldKeyMatches (field : Obj) (filterKey : String) : Bool :=
  (match assocGet "column_id" field with
   | some v => jvalBeq v (.str filterKey)
   | none => false) ||
  (match assocGet "key" field with
   | some v => jvalBeq v (.str filterKey)
   | none => false)

/-- The inner `for field in fields` loop of `_matches_filters` for one
filter key. `none` models a raised exception (a non-dict entry in the
fields array, or a `TypeError` inside the condition). -/
def findMatch (filterKey : String) (condition : Cond) :
    List JVal → Option Bool
  | [] => some false
  | f :: fs =>
    match f with
    | .obj kvs =>
      if fieldKeyMatches kvs filterKey then
        match applyFilterCondition (extractFieldValue kvs) condition with
        | some true => some true
        | some false => findMatch filterKey condition fs
        | none => none
      else findMatch filterKey condition fs
    | _ => none

/-- `item.get("fields", [])` as a list, when it is one. -/
def itemFieldsList (item : Obj) : Option (List JVal) :=
  match assocGet "fields" item with
  | none => some []
  | some (.arr xs) => some xs
  | some _ => none

/-- The outer `for filter_key, filter_condition in filters.items()` loop of
`_matches_filters` (AND semantics, short-circuiting on the first key with
no matching field). -/
def matchesLoop (fields : List JVal) : List (String × Cond) → Option Bool
  | [] => some true
  | (k, cond) :: rest =>
    match findMatch k cond fields with
    | some true => matchesLoop fields rest
    | some false => some false
    | none => none

/-- `SlackListsClient._matches_filters`. An empty filter set matches
without ever touching the fields value. -/
def matchesFilters (item : Obj) (filters : List (String × Cond)) :
    Option Bool :=
  match filters with
  | [] => some true
  | _ =>
    match itemFieldsList item with
    | some fields => matchesLoop fields filters
    | none => none

theorem matchesFilters_cons (item : Obj) (kc0 : String × Cond)
    (rest : List (String × Cond)) :
    matchesFilters item (kc0 :: rest) =
      match itemFieldsList item with
      | some fields => matchesLoop fields (kc0 :: rest)
      | none => none := by
  rw [matchesFilters]
  intro h; cases h

theorem matchesFilters_someFields (item : Obj) (kc0 : String × Cond)
    (rest : List (String × Cond)) (fields : List JVal)
    (hf : itemFieldsList item = some fields) :
    matchesFilters item (kc0 :: rest) = matchesLoop fields (kc0 :: rest) := by
  rw [matchesFilters_cons, hf]

theorem matchesFilters_noneFields (item : Obj) (kc0 : String × Cond)
    (rest : List (String × Cond)) (hf : itemFieldsList item = none) :
    matchesFilters item (kc0 :: rest) = none := by
  rw [matchesFilters_cons, hf]

theorem findMatch_some_true_exists (k : String) (c : Cond) :
    ∀ (fields : List JVal), findMatch k c fields = some true →
      ∃ f ∈ fields, ∃ kvs, f = JVal.obj kvs ∧ fieldKeyMatches kvs k = true ∧
        applyFilterCondition (extractFieldValue kvs) c = some true := by
  intro fields
  induction fields with
  | nil => intro h; simp [findMatch] at h
  | cons f fs ih =>
    intro h
    cases f with
    | obj kvs =>
      rw [findMatch] at h
      by_cases hk : fieldKeyMatches kvs k
      · rw [if_pos hk] at h
        cases happ : applyFilterCondition (extractFieldValue kvs) c with
        | none => rw [happ] at h; cases h
        | some b =>
          cases b with
          | true => exact ⟨.obj kvs, List.mem_cons_self _ _, kvs, rfl, hk, happ⟩
          | false =>
            rw [happ] at h
            obtain ⟨f', hf', hrest⟩ := ih h
            exact ⟨f', List.mem_cons_of_mem _ hf', hrest⟩
      · rw [if_neg hk] at h
        obtain ⟨f', hf', hrest⟩ := ih h
        exact ⟨f', List.mem_cons_of_mem _ hf', hrest⟩
    | null => simp [findMatch] at h
    | bool b => simp [findMatch] at h
    | num q => simp [findMatch] at h
    | str s => simp [findMatch] at h
    | arr xs => simp [findMatch] at h

theorem findMatch_some_false_no_witness (k : String) (c : Cond) :
    ∀ (fields : List JVal), findMatch k c fields = some false →
      ∀ f ∈ fields, ∀ kvs, f = JVal.obj kvs → fieldKeyMatches kvs k = true →
        applyFilterCondition (extractFieldValue kvs) c ≠ some true := by
  intro fields
  induction fields with
  | nil => intro _ f hf; cases hf
  | cons f fs ih =>
    intro h g hg kvs hgobj hkm happ
    cases f with
    | obj kvs' =>
      rw [findMatch] at h
      rcases List.mem_cons.mp hg with rfl | hgmem
      · cases hgobj
        rw [if_pos hkm, happ] at h
        cases h
      · by_cases hk : fieldKeyMatches kvs' k
        · rw [if_pos hk] at h
          cases happ' : applyFilterCondition (extractFieldValue kvs') c with
          | none => rw [happ'] at h; cases h
          | some b =>
            cases b with
            | true => rw [happ'] at h; cases h
            | false =>
              rw [happ'] at h
              exact ih h g hgmem kvs hgobj hkm happ
        · rw [if_neg hk] at h
          exact ih h g hgmem kvs hgobj hkm happ
    | null => simp [findMatch] at h
    | bool b => simp [findMatch] at h
    | num q => simp [findMatch] at h
    | str s => simp [findMatch] at h
    | arr xs => simp [findMatch] at h

theorem findMatch_true_of_witness (k : String) (c : Cond) :
    ∀ (fields : List JVal), findMatch k c fields ≠ none →
      (∃ f ∈ fields, ∃ kvs, f = JVal.obj kvs ∧ fieldKeyMatches kvs k = true ∧
        applyFilterCondition (extractFieldValue kvs) c = some true) →
      findMatch k c fields = some true := by
  intro fields
  induction fields with
  | nil => intro _ ⟨f, hf, _⟩; cases hf
  | cons f fs ih =>
    intro hne ⟨g, hg, kvs, hgobj, hkm, happ⟩
    cases f with
    | obj kvs' =>
      rw [findMatch] at hne ⊢
      rcases List.mem_cons.mp hg with rfl | hgmem
      · cases hgobj
        rw [if_pos hkm, happ]
      · by_cases hk : fieldKeyMatches kvs' k
        · rw [if_pos hk] at hne ⊢
          cases happ' : applyFilterCondition (extractFieldValue kvs') c with
          | none => rw [happ'] at hne; exact absurd rfl hne
          | some b =>
            cases b with
            | true => rfl
            | false =>
              rw [happ'] at hne
              exact ih hne ⟨g, hgmem, kvs, hgobj, hkm, happ⟩
        · rw [if_neg hk] at hne ⊢
          exact ih hne ⟨g, hgmem, kvs, hgobj, hkm, happ⟩
    | null => simp [findMatch] at hne
    | bool b => simp [findMatch] at hne
    | num q => simp [findMatch] at hne
    | str s => simp [findMatch] at hne
    | arr xs => simp [findMatch] at hne

theorem matchesLoop_true_forall (fields : List JVal) :
    ∀ (filters : List (String × Cond)),
      matchesLoop fields filters = some true →
      ∀ kc ∈ filters, findMatch kc.1 kc.2 fields = some true := by
  intro filters
  induction filters with
  | nil => intro _ kc hkc; cases hkc
  | cons kc' rest ih =>
    intro h kc hkc
    obtain ⟨k', c'⟩ := kc'
    rw [matchesLoop] at h
    cases hfm : findMatch k' c' fields with
    | none => rw [hfm] at h; cases h
    | some b =>
      cases b with
      | false => rw [hfm] at h; cases h
      | true =>
        rw [hfm] at h
        rcases List.mem_cons.mp hkc with rfl | hmem
        · exact hfm
        · exact ih h kc hmem

theorem matchesLoop_true_of_forall (fields : List JVal) :
    ∀ (filters : List (String × Cond)),
      (∀ kc ∈ filters, findMatch kc.1 kc.2 fields = some true) →
      matchesLoop fields filters = some true := by
  intro filters
  induction filters with
  | nil => intro _; rfl
  | cons kc' rest ih =>
    intro h
    obtain ⟨k', c'⟩ := kc'
    rw [matchesLoop, h (k', c') (List.mem_cons_self _ _)]
    exact ih (fun kc hkc => h kc (List.mem_cons_of_mem _ hkc))

theorem matchesLoop_false_exists (fields : List JVal) :
    ∀ (filters : List (String × Cond)),
      matchesLoop fields filters = some false →
      ∃ kc ∈ filters, findMatch kc.1 kc.2 fields = some false := by
  intro filters
  induction filters with
  | nil => intro h; simp [matchesLoop] at h
  | cons kc' rest ih =>
    intro h
    obtain ⟨k', c'⟩ := kc'
    rw [matchesLoop] at h
    cases hfm : findMatch k' c' fields with
    | none => rw [hfm] at h; cases h
    | some b =>
      cases b with
      | false => exact ⟨(k', c'), List.mem_cons_self _ _, hfm⟩
      | true =>
        rw [hfm] at h
        obtain ⟨kc, hkc, hfm'⟩ := ih h
        exact ⟨kc, List.mem_cons_of_mem _ hkc, hfm'⟩

/-- C5: an item matches a filter set iff every filter key is satisfied by
some field whose `column_id` or `key` equals that key and whose extracted
value passes the key's condition (evaluation not raising); an item with no
key-matching field for some filter key never matches; and `_values_equal`
compares a one-element array by its sole element and any other value
directly. -/
theorem filter_match_semantics :
    (∀ (item : Obj) (filters : List (String × Cond)),
        matchesFilters item filters ≠ none →
        (matchesFilters item filters = some true ↔
          ∀ kc ∈ filters, ∃ f ∈ (itemFieldsList item).getD [], ∃ kvs,
            f = JVal.obj kvs ∧ fieldKeyMatches kvs kc.1 = true ∧
            applyFilterCondition (extractFieldValue kvs) kc.2 = some true)) ∧
    (∀ (item : Obj) (filters : List (String × Cond)) (k : String) (c : Cond),
        (k, c) ∈ filters →
        (∀ f ∈ (itemFieldsList item).getD [], ∀ kvs, f = JVal.obj kvs →
          fieldKeyMatches kvs k = false) →
        matchesFilters item filters ≠ some true) ∧
    (∀ (x e : JVal), valuesEqual (.arr [x]) e = jvalBeq x e) ∧
    (∀ (v e : JVal), (∀ x, v ≠ .arr [x]) → valuesEqual v e = jvalBeq v e) := by
  refine ⟨?_, ?_, fun x e => rfl, ?_⟩
  · intro item filters hne
    cases filters with
    | nil =>
      constructor
      · intro _ kc hkc; cases hkc
      · intro _; rfl
    | cons kc0 rest =>
      cases hf : itemFieldsList item with
      | none =>
        exact absurd (matchesFilters_noneFields item kc0 rest hf) hne
      | some fields =>
        rw [matchesFilters_someFields item kc0 rest fields hf]
        constructor
        · intro h kc hkc
          exact findMatch_some_true_exists kc.1 kc.2 fields
            (matchesLoop_true_forall fields (kc0 :: rest) h kc hkc)
        · intro hrhs
          cases hv : matchesLoop fields (kc0 :: rest) with
          | none =>
            exact absurd
              ((matchesFilters_someFields item kc0 rest fields hf).trans hv)
              hne
          | some b =>
            cases b with
            | true => rfl
            | false =>
              obtain ⟨kc, hkc, hfm⟩ :=
                matchesLoop_false_exists fields (kc0 :: rest) hv
              obtain ⟨g, hg, kvs, hgobj, hkm, happ⟩ := hrhs kc hkc
              exact absurd happ
                (findMatch_some_false_no_witness kc.1 kc.2 fields hfm
                  g hg kvs hgobj hkm)
  · intro item filters k c hkc hno h
    cases filters with
    | nil => cases hkc
    | cons kc0 rest =>
      cases hf : itemFieldsList item with
      | none =>
        rw [matchesFilters_noneFields item kc0 rest hf] at h
        cases h
      | some fields =>
        rw [matchesFilters_someFields item kc0 rest fields hf] at h
        have hfm := matchesLoop_true_forall fields (kc0 :: rest) h (k, c) hkc
        obtain ⟨g, hg, kvs, hgobj, hkm, _⟩ :=
          findMatch_some_true_exists k c fields hfm
        have hfalse : fieldKeyMatches kvs k = false := by
          have hgd : (itemFieldsList item).getD ([] : List JVal) = fields := by
            rw [hf]; rfl
          have hgmem : g ∈ (itemFieldsList item).getD ([] : List JVal) := by
            rw [hgd]; exact hg
          exact hno g hgmem kvs hgobj
        rw [hkm] at hfalse
        cases hfalse
  · intro v e hx
    cases v with
    | arr xs =>
      cases xs with
      | nil => rfl
      | cons x xs' =>
        cases xs' with
        | nil => exact absurd rfl (hx x)
        | cons y ys => rfl
    | null => rfl
    | bool b => rfl
    | num q => rfl
    | str s => rfl
    | obj kvs => rfl

/-- C5 witness: the iff, the missing-field clause and the equals clauses
evaluated on a concrete item with one `select` field keyed "status". -/
theorem filter_match_semantics_witness :
    matchesFilters
        [("fields", JVal.arr [JVal.obj
          [("key", JVal.str "status"),
           ("select", JVal.arr [JVal.str "active"])]])]
        [("status", [("equals", JVal.str "active")])] = some true ∧
    valuesEqual (JVal.arr [JVal.str "a"]) (JVal.str "b") =
      jvalBeq (JVal.str "a") (JVal.str "b") := by
  constructor
  · exact (filter_match_semantics.1
      [("fields", JVal.arr [JVal.obj
        [("key", JVal.str "status"),
         ("select", JVal.arr [JVal.str "active"])]])]
      [("status", [("equals", JVal.str "active")])]
      (by intro h; cases h)).mpr (by
        intro kc hkc
        rcases List.mem_cons.mp hkc with rfl | h2
        · exact ⟨JVal.obj
            [("key", JVal.str "status"),
             ("select", JVal.arr [JVal.str "active"])],
            List.mem_singleton.mpr rfl,
            [("key", JVal.str "status"),
             ("select", JVal.arr [JVal.str "active"])], rfl, rfl, rfl⟩
        · cases h2)
  · exact filter_match_semantics.2.2.1 (JVal.str "a") (JVal.str "b")

theorem applyCondList_vacuous (value : JVal) :
    ∀ (cond : Cond),
      (∀ oe ∈ cond, oe.1 ∉ ["equals", "not_equals", "contains",
        "not_contains", "in", "not_in"]) →
      applyCondList value cond = some true := by
  intro cond
  induction cond with
  | nil => intro _; rfl
  | cons oe rest ih =>
    intro h
    obtain ⟨op, e⟩ := oe
    have hop : op ∉ ["equals", "not_equals", "contains", "not_contains",
        "in", "not_in"] := h (op, e) (List.mem_cons_self _ _)
    have h1 : ¬op = "equals" := by intro hh; subst hh; exact hop (by decide)
    have h2 : ¬op = "not_equals" := by intro hh; subst hh; exact hop (by decide)
    have h3 : ¬op = "contains" := by intro hh; subst hh; exact hop (by decide)
    have h4 : ¬op = "not_contains" := by
      intro hh; subst hh; exact hop (by decide)
    have h5 : ¬op = "in" := by intro hh; subst hh; exact hop (by decide)
    have h6 : ¬op = "not_in" := by intro hh; subst hh; exact hop (by decide)
    have hstep : condStep value op e = some true := by
      rw [condStep, if_neg h1, if_neg h2, if_neg h3, if_neg h4, if_neg h5,
        if_neg h6]
    rw [applyCondList, hstep]
    exact ih (fun oe hoe => h oe (List.mem_cons_of_mem _ hoe))

theorem findMatch_vacuous (k : String) (c : Cond)
    (hcond : ∀ v, applyFilterCondition v c = some true) :
    ∀ (fields : List JVal),
      (∀ f ∈ fields, ∃ kvs, f = JVal.obj kvs) →
      (∃ f ∈ fields, ∃ kvs, f = JVal.obj kvs ∧ fieldKeyMatches kvs k = true) →
      findMatch k c fields = some true := by
  intro fields
  induction fields with
  | nil => intro _ ⟨f, hf, _⟩; cases hf
  | cons f fs ih =>
    intro hobjs hex
    obtain ⟨kvs', hfobj⟩ := hobjs f (List.mem_cons_self _ _)
    subst hfobj
    rw [findMatch]
    by_cases hk : fieldKeyMatches kvs' k
    · rw [if_pos hk, hcond (extractFieldValue kvs')]
    · rw [if_neg hk]
      obtain ⟨g, hg, kvs, hgobj, hkm⟩ := hex
      rcases List.mem_cons.mp hg with rfl | hgmem
      · cases hgobj; exact absurd hkm (by simpa using hk)
      · exact ih (fun f hf => hobjs f (List.mem_cons_of_mem _ hf))
          ⟨g, hgmem, kvs, hgobj, hkm⟩

/-- C10: a filter condition containing no recognized operator (empty, or
only operator names outside equals/not_equals/contains/not_contains/in/
not_in) is satisfied by every extracted value; consequently any item whose
fields are objects and some field of which carries the filtered key
matches under such a condition, whatever the field's value. -/
theorem unrecognized_operator_vacuous :
    (∀ (value : JVal) (cond : Cond),
        (∀ oe ∈ cond, oe.1 ∉ ["equals", "not_equals", "contains",
          "not_contains", "in", "not_in"]) →
        applyFilterCondition value cond = some true) ∧
    (∀ (item : Obj) (k : String) (cond : Cond) (fields : List JVal),
        (∀ oe ∈ cond, oe.1 ∉ ["equals", "not_equals", "contains",
          "not_contains", "in", "not_in"]) →
        itemFieldsList item = some fields →
        (∀ f ∈ fields, ∃ kvs, f = JVal.obj kvs) →
        (∃ f ∈ fields, ∃ kvs, f = JVal.obj kvs ∧
          fieldKeyMatches kvs k = true) →
        matchesFilters item [(k, cond)] = some true) := by
  constructor
  · intro value cond h
    exact applyCondList_vacuous value cond h
  · intro item k cond fields hvac hfl hobjs hex
    have hcond : ∀ v, applyFilterCondition v cond = some true :=
      fun v => applyCondList_vacuous v cond hvac
    rw [matchesFilters_someFields item (k, cond) [] fields hfl, matchesLoop,
      findMatch_vacuous k cond hcond fields hobjs hex]
    rfl

/-- C10 witness: the condition `{"matches": "x"}` (unknown operator) is
vacuously satisfied, and an item carrying a "status"-keyed field matches
the filter `{"status": {"matches": "x"}}` although its value is unrelated. -/
theorem unrecognized_operator_vacuous_witness :
    applyFilterCondition JVal.null [("matches", JVal.str "x")] = some true ∧
    matchesFilters
        [("fields", JVal.arr [JVal.obj
          [("key", JVal.str "status"),
           ("select", JVal.arr [JVal.str "whatever"])]])]
        [("status", [("matches", JVal.str "x")])] = some true := by
  constructor
  · exact unrecognized_operator_vacuous.1 JVal.null
      [("matches", JVal.str "x")] (by decide)
  · exact unrecognized_operator_vacuous.2
      [("fields", JVal.arr [JVal.obj
        [("key", JVal.str "status"),
         ("select", JVal.arr [JVal.str "whatever"])]])]
      "status" [("matches", JVal.str "x")]
      [JVal.obj [("key", JVal.str "status"),
        ("select", JVal.arr [JVal.str "whatever"])]]
      (by decide) rfl
      (by
        intro f hf
        rcases List.mem_singleton.mp hf with rfl
        exact ⟨_, rfl⟩)
      ⟨JVal.obj [("key", JVal.str "status"),
        ("select", JVal.arr [JVal.str "whatever"])],
       List.mem_singleton.mpr rfl,
       [("key", JVal.str "status"),
        ("select", JVal.arr [JVal.str "whatever"])], rfl, rfl⟩

/-- The client-side filtering loop of `list_items`: accumulate matching
items in fetch order, breaking as soon as `len(filtered) >= limit` after
an append. `none` models an exception raised while matching. -/
def filterLimited (filters : List (String × Cond)) (limit : ℕ) :
    List Obj → List Obj → Option (List Obj)
  | acc, [] => some acc
  | acc, item :: rest =>
    match matchesFilters item filters with
    | none => none
    | some false => filterLimited filters limit acc rest
    | some true =>
      if limit ≤ (acc ++ [item]).length then some (acc ++ [item])
      else filterLimited filters limit (acc ++ [item]) rest

/-- The items/total part of a `list_items` response page. -/
structure ListPage where
  items : List Obj
  total : ℕ
  deriving Repr

/-- The post-fetch processing of `SlackListsClient.list_items` on the
items of an ok response: filters (when the filter dict is non-empty)
truncate the page, and `total` is the length of whatever is returned. -/
def listItemsPost (fetched : List Obj) (filters : List (String × Cond))
    (limit : ℕ) : Option ListPage :=
  if filters.isEmpty then some ⟨fetched, fetched.length⟩
  else
    match filterLimited filters limit [] fetched with
    | some res => some ⟨res, res.length⟩
    | none => none

theorem filterLimited_spec (filters : List (String × Cond)) (limit : ℕ) :
    ∀ (items : List Obj) (acc : List Obj), acc.length < limit →
      (∀ it ∈ items, matchesFilters it filters ≠ none) →
      filterLimited filters limit acc items =
        some (acc ++ (items.filter
          (fun it => matchesFilters it filters == some true)).take
          (limit - acc.length)) := by
  intro items
  induction items with
  | nil => intro acc _ _; simp [filterLimited]
  | cons item rest ih =>
    intro acc hlen hok
    rw [filterLimited]
    cases hm : matchesFilters item filters with
    | none => exact absurd hm (hok item (List.mem_cons_self _ _))
    | some b =>
      cases b with
      | false =>
        rw [ih acc hlen (fun it hit => hok it (List.mem_cons_of_mem _ hit))]
        have hfil : (item :: rest).filter
            (fun it => matchesFilters it filters == some true) =
            rest.filter (fun it => matchesFilters it filters == some true) := by
          rw [List.filter_cons_of_neg]
          simp [hm]
        rw [hfil]
      | true =>
        have hfil : (item :: rest).filter
            (fun it => matchesFilters it filters == some true) =
            item :: rest.filter
              (fun it => matchesFilters it filters == some true) := by
          rw [List.filter_cons_of_pos]
          simp [hm]
        rw [hfil]
        by_cases hstop : limit ≤ (acc ++ [item]).length
        · rw [if_pos hstop]
          have hlim : limit - acc.length = 1 := by
            simp only [List.length_append, List.length_singleton] at hstop
            omega
          rw [hlim, List.take_succ_cons, List.take_zero]
        · rw [if_neg hstop]
          have hlt : (acc ++ [item]).length < limit := by omega
          rw [ih (acc ++ [item]) hlt
            (fun it hit => hok it (List.mem_cons_of_mem _ hit))]
          have harith : limit - acc.length = (limit - (acc ++ [item]).length) + 1 := by
            simp only [List.length_append, List.length_singleton]
            simp only [List.length_append, List.length_singleton] at hstop
            omega
          rw [harith, List.take_succ_cons, List.append_assoc,
            List.singleton_append]

/-- C9 (counterexample): with `limit = 0` and a single matching fetched
item, `list_items` still returns one item (the `>= limit` break fires only
after the first append), so the page is not bounded by `limit`. -/
theorem listItems_limit_zero_counterexample :
    (listItemsPost
        [[("fields", JVal.arr [JVal.obj
          [("key", JVal.str "status"),
           ("select", JVal.arr [JVal.str "a"])]])]]
        [("status", [("equals", JVal.str "a")])] 0).map
      (fun p => p.items.length) = some 1 := by
  rfl

/-- C9 (amended): for `limit ≥ 1` and a non-empty filter set, provided
matching raises no exception, the returned page is exactly the first
`limit` matching items in fetch order (so it has at most `limit` items, is
not deduplicated or reordered, and stops at `limit` matches) and the
returned `total` is the length of the returned page, not the remote
total. -/
theorem listItems_filtered_page (fetched : List Obj)
    (filters : List (String × Cond)) (limit : ℕ)
    (hne : filters ≠ []) (hlim : 1 ≤ limit)
    (hok : ∀ it ∈ fetched, matchesFilters it filters ≠ none) :
    listItemsPost fetched filters limit =
      some ⟨(fetched.filter
          (fun it => matchesFilters it filters == some true)).take limit,
        ((fetched.filter
          (fun it => matchesFilters it filters == some true)).take
          limit).length⟩ ∧
    ((fetched.filter
        (fun it => matchesFilters it filters == some true)).take
        limit).length ≤ limit := by
  have hemp : filters.isEmpty = false := by
    cases filters with
    | nil => exact absurd rfl hne
    | cons kc rest => rfl
  constructor
  · rw [listItemsPost, hemp]
    simp only [Bool.false_eq_true, if_false]
    rw [filterLimited_spec filters limit fetched [] (by simpa using hlim) hok]
    simp
  · calc ((fetched.filter
        (fun it => matchesFilters it filters == some true)).take
        limit).length ≤ limit := List.length_take_le _ _

/-- C9 witness: the amended theorem applied to two fetched items of which
only the first matches, with `limit = 1`: the page is exactly the first
match and `total` is 1. -/
theorem listItems_filtered_page_witness :
    listItemsPost
        [[("fields", JVal.arr [JVal.obj
            [("key", JVal.str "status"),
             ("select", JVal.arr [JVal.str "a"])]])],
         [("fields", JVal.arr [JVal.obj
            [("key", JVal.str "status"),
             ("select", JVal.arr [JVal.str "b"])]])]]
        [("status", [("equals", JVal.str "a")])] 1 =
      some ⟨[[("fields", JVal.arr [JVal.obj
          [("key", JVal.str "status"),
           ("select", JVal.arr [JVal.str "a"])]])]], 1⟩ :=
  ((listItems_filtered_page
      [[("fields", JVal.arr [JVal.obj
          [("key", JVal.str "status"),
           ("select", JVal.arr [JVal.str "a"])]])],
       [("fields", JVal.arr [JVal.obj
          [("key", JVal.str "status"),
           ("select", JVal.arr [JVal.str "b"])]])]]
      [("status", [("equals", JVal.str "a")])] 1
      (List.cons_ne_nil _ _) (le_refl 1)
      (by
        intro it hit
        rcases List.mem_cons.mp hit with rfl | hit2
        · decide
        · rcases List.mem_singleton.mp hit2 with rfl
          decide)).1).trans (by rfl)

/-- Python truthiness (`bool(v)`) on JSON-like values. -/
def jTruthy : JVal → Bool
  | .null => false
  | .bool b => b
  | .num q => decide (q ≠ 0)
  | .str s => !s.isEmpty
  | .arr xs => !xs.isEmpty
  | .obj kvs => !kvs.isEmpty

/-- `builders.ColumnBuilder` state: key, name, an optional type, the
primary marker and the accumulated options dict. -/
structure ColumnBuilder where
  key : String
  name : String
  type : Option String
  isPrimary : Bool
  options : Obj
  deriving Repr

/-- `ColumnBuilder.__init__`. -/
def ColumnBuilder.init (key name : String) : ColumnBuilder :=
  ⟨key, name, none, false, []⟩

/-- `ColumnBuilder.text()`. -/
def ColumnBuilder.textType (c : ColumnBuilder) : ColumnBuilder :=
  { c with type := some "text" }

/-- `ColumnBuilder.number()`. -/
def ColumnBuilder.numberType (c : ColumnBuilder) : ColumnBuilder :=
  { c with type := some "number" }

/-- `ColumnBuilder.primary()`. -/
def ColumnBuilder.primary (c : ColumnBuilder) : ColumnBuilder :=
  { c with isPrimary := true }

/-- `if self._options: column["options"] = self._options`. -/
def ColumnBuilder.withOptions (c : ColumnBuilder) (column : Obj) : Obj :=
  if c.options.isEmpty then column
  else assocSet "options" (.obj c.options) column

/-- `ColumnBuilder.build()`: requires a type; a primary column must have
type text, and then carries `is_primary_column: true`. -/
def ColumnBuilder.build (c : ColumnBuilder) : Except String Obj :=
  match c.type with
  | none => .error "Column type must be set before building"
  | some t =>
    let column : Obj :=
      [("key", .str c.key), ("name", .str c.name), ("type", .str t)]
    if c.isPrimary then
      if t ≠ "text" then .error "Primary column must be text type"
      else
        c.withOptions (assocSet "is_primary_column" (.bool true) column)
          |> .ok
    else .ok (c.withOptions column)

/-- An argument of `SchemaBuilder.add_column`: a `ColumnBuilder` instance
or a raw column dict. -/
inductive ColumnInput where
  | builder (c : ColumnBuilder)
  | raw (d : Obj)

/-- The dict `add_column` works with: `column.build()` for a builder,
the dict itself otherwise. -/
def colDictOf : ColumnInput → Except String Obj
  | .builder c => c.build
  | .raw d => .ok d

/-- Truthiness of `col_dict.get("is_primary_column")`. -/
def primaryFlag (d : Obj) : Bool :=
  match assocGet "is_primary_column" d with
  | some v => jTruthy v
  | none => false

/-- `builders.SchemaBuilder` state. -/
structure SchemaBuilder where
  columns : List Obj
  hasPrimary : Bool
  deriving Repr

/-- `SchemaBuilder.__init__`. -/
def SchemaBuilder.init : SchemaBuilder := ⟨[], false⟩

/-- `SchemaBuilder.add_column`: rejects a second (truthy) primary marker,
otherwise appends the column dict. -/
def SchemaBuilder.addColumn (st : SchemaBuilder) (c : ColumnInput) :
    Except String SchemaBuilder :=
  match colDictOf c with
  | .error e => .error e
  | .ok d =>
    if primaryFlag d then
      if st.hasPrimary then .error "Schema can only have one primary column"
      else .ok ⟨st.columns ++ [d], true⟩
    else .ok ⟨st.columns ++ [d], st.hasPrimary⟩

/-- `SchemaBuilder.build()`: a schema needs at least one column. -/
def SchemaBuilder.buildSchema (st : SchemaBuilder) :
    Except String (List Obj) :=
  if st.columns.isEmpty then .error "Schema must have at least one column"
  else .ok st.columns

/-- A chain of `add_column` calls, stopping at the first failure. -/
def runAdds : SchemaBuilder → List ColumnInput → Except String SchemaBuilder
  | st, [] => .ok st
  | st, c :: cs =>
    match st.addColumn c with
    | .error e => .error e
    | .ok st' => runAdds st' cs

theorem addColumn_invariant (st : SchemaBuilder) (c : ColumnInput)
    (st' : SchemaBuilder) (h : st.addColumn c = .ok st')
    (h0 : st.hasPrimary = false → st.columns.countP primaryFlag = 0)
    (h1 : st.columns.countP primaryFlag ≤ 1) :
    (st'.hasPrimary = false → st'.columns.countP primaryFlag = 0) ∧
    st'.columns.countP primaryFlag ≤ 1 := by
  cases hd : colDictOf c with
  | error e => rw [SchemaBuilder.addColumn, hd] at h; cases h
  | ok d =>
    rw [SchemaBuilder.addColumn] at h
    simp only [hd] at h
    by_cases hp : primaryFlag d
    · rw [if_pos hp] at h
      cases hhp : st.hasPrimary with
      | true => rw [hhp] at h; cases h
      | false =>
        rw [hhp] at h
        simp only [if_neg Bool.false_ne_true] at h
        cases h
        constructor
        · intro hfalse; cases hfalse
        · rw [List.countP_append, h0 hhp]
          simp [List.countP_cons, hp]
    · rw [if_neg hp] at h
      cases h
      constructor
      · intro hfalse
        rw [List.countP_append, h0 hfalse]
        simp [List.countP_cons, hp]
      · rw [List.countP_append]
        have : List.countP primaryFlag [d] = 0 := by
          simp [List.countP_cons, hp]
        omega

theorem runAdds_invariant :
    ∀ (inputs : List ColumnInput) (st st' : SchemaBuilder),
      runAdds st inputs = .ok st' →
      (st.hasPrimary = false → st.columns.countP primaryFlag = 0) →
      st.columns.countP primaryFlag ≤ 1 →
      st'.columns.countP primaryFlag ≤ 1 := by
  intro inputs
  induction inputs with
  | nil =>
    intro st st' h h0 h1
    rw [runAdds] at h
    cases h
    exact h1
  | cons c cs ih =>
    intro st st' h h0 h1
    rw [runAdds] at h
    cases hc : st.addColumn c with
    | error e => rw [hc] at h; cases h
    | ok st1 =>
      rw [hc] at h
      obtain ⟨g0, g1⟩ := addColumn_invariant st c st1 hc h0 h1
      exact ih st1 st' h g0 g1

theorem withOptions_get_ne (c : ColumnBuilder) (X : Obj) (k : String)
    (hk : k ≠ "options") :
    assocGet k (c.withOptions X) = assocGet k X := by
  rw [ColumnBuilder.withOptions]
  by_cases he : c.options.isEmpty
  · rw [if_pos he]
  · rw [if_neg he, assocGet_set_ne k "options" _ X (fun hh => hk hh.symm)]

/-- C7 (counterexample): `add_column` accepts a **raw dict** marked
`is_primary_column: true` with type "number" without any type check, and
the schema builds successfully — so building does not fail for every
primary column whose type is not text. -/
theorem schema_raw_primary_counterexample :
    SchemaBuilder.init.addColumn (.raw
      [("key", JVal.str "k"), ("name", JVal.str "n"),
       ("type", JVal.str "number"),
       ("is_primary_column", JVal.bool true)]) =
      .ok ⟨[[("key", JVal.str "k"), ("name", JVal.str "n"),
        ("type", JVal.str "number"),
        ("is_primary_column", JVal.bool true)]], true⟩ ∧
    (SchemaBuilder.mk
        [[("key", JVal.str "k"), ("name", JVal.str "n"),
          ("type", JVal.str "number"),
          ("is_primary_column", JVal.bool true)]] true).buildSchema =
      .ok [[("key", JVal.str "k"), ("name", JVal.str "n"),
        ("type", JVal.str "number"),
        ("is_primary_column", JVal.bool true)]] ∧
    primaryFlag
      [("key", JVal.str "k"), ("name", JVal.str "n"),
       ("type", JVal.str "number"),
       ("is_primary_column", JVal.bool true)] = true ∧
    assocGet "type"
      [("key", JVal.str "k"), ("name", JVal.str "n"),
       ("type", JVal.str "number"),
       ("is_primary_column", JVal.bool true)] =
      some (JVal.str "number") :=
  ⟨rfl, rfl, rfl, rfl⟩

/-- C7 (amended): `ColumnBuilder.build` fails on a primary column whose
type is not text; a `ColumnBuilder`-built column that carries a truthy
primary marker has type text; `add_column` rejects any second truthy
primary marker; and every successfully built schema carries at most one
column with a truthy `is_primary_column`. (Raw dict columns bypass the
text-type check, per the counterexample.) -/
theorem schema_primary_invariant :
    (∀ (c : ColumnBuilder) (t : String), c.isPrimary = true →
        c.type = some t → t ≠ "text" →
        c.build = .error "Primary column must be text type") ∧
    (∀ (c : ColumnBuilder) (d : Obj), c.build = .ok d →
        primaryFlag d = true → assocGet "type" d = some (.str "text")) ∧
    (∀ (st : SchemaBuilder) (c : ColumnInput) (d : Obj),
        colDictOf c = .ok d → primaryFlag d = true → st.hasPrimary = true →
        st.addColumn c = .error "Schema can only have one primary column") ∧
    (∀ (inputs : List ColumnInput) (st' : SchemaBuilder) (cols : List Obj),
        runAdds SchemaBuilder.init inputs = .ok st' →
        st'.buildSchema = .ok cols →
        cols.countP primaryFlag ≤ 1) := by
  refine ⟨?_, ?_, ?_, ?_⟩
  · intro c t hp ht htne
    rw [ColumnBuilder.build]
    simp only [ht, hp]
    rw [if_pos htne, if_pos trivial]
  · intro c d h hpf
    cases hty : c.type with
    | none => rw [ColumnBuilder.build, hty] at h; cases h
    | some t =>
      rw [ColumnBuilder.build] at h
      simp only [hty] at h
      cases hp : c.isPrimary with
      | true =>
        simp only [hp, if_true] at h
        by_cases htt : t = "text"
        · subst htt
          simp only [ne_eq, not_true_eq_false, if_false] at h
          cases h
          rw [withOptions_get_ne c _ "type" (by decide),
            assocGet_set_ne "type" "is_primary_column" _ _ (by decide)]
          rfl
        · rw [if_pos htt] at h
          cases h
      | false =>
        simp only [hp, Bool.false_eq_true, if_false] at h
        cases h
        exfalso
        have hnone : primaryFlag (c.withOptions
            [("key", .str c.key), ("name", .str c.name), ("type", .str t)]) =
            false := by
          rw [primaryFlag,
            withOptions_get_ne c _ "is_primary_column" (by decide)]
          rfl
        rw [hnone] at hpf
        cases hpf
  · intro st c d hd hp hhp
    rw [SchemaBuilder.addColumn]
    simp only [hd]
    rw [if_pos hp, if_pos hhp]
  · intro inputs st' cols hrun hbuild
    have hcount := runAdds_invariant inputs SchemaBuilder.init st' hrun
      (fun _ => rfl) (by simp [SchemaBuilder.init])
    rw [SchemaBuilder.buildSchema] at hbuild
    by_cases he : st'.columns.isEmpty
    · rw [if_pos he] at hbuild; cases hbuild
    · rw [if_neg he] at hbuild
      cases hbuild
      exact hcount

/-- C7 witness: a number-typed primary `ColumnBuilder` fails to build; a
second primary column is rejected; and a one-column schema built from a
raw text column has at most one primary marker. -/
theorem schema_primary_invariant_witness :
    ((ColumnBuilder.init "k" "n").numberType.primary).build =
      .error "Primary column must be text type" ∧
    (SchemaBuilder.mk
        [[("key", JVal.str "a"), ("name", JVal.str "A"),
          ("type", JVal.str "text"), ("is_primary_column", JVal.bool true)]]
        true).addColumn (.raw
      [("key", JVal.str "b"), ("name", JVal.str "B"),
       ("type", JVal.str "text"), ("is_primary_column", JVal.bool true)]) =
      .error "Schema can only have one primary column" ∧
    List.countP primaryFlag
      [[("key", JVal.str "k"), ("name", JVal.str "n"),
        ("type", JVal.str "text")]] ≤ 1 :=
  ⟨schema_primary_invariant.1 ((ColumnBuilder.init "k" "n").numberType.primary)
      "number" rfl rfl (by decide),
   schema_primary_invariant.2.2.1 _ (.raw
      [("key", JVal.str "b"), ("name", JVal.str "B"),
       ("type", JVal.str "text"), ("is_primary_column", JVal.bool true)])
      _ rfl rfl rfl,
   schema_primary_invariant.2.2.2
      [.raw [("key", JVal.str "k"), ("name", JVal.str "n"),
        ("type", JVal.str "text")]]
      ⟨[[("key", JVal.str "k"), ("name", JVal.str "n"),
        ("type", JVal.str "text")]], false⟩
      [[("key", JVal.str "k"), ("name", JVal.str "n"),
        ("type", JVal.str "text")]] rfl rfl⟩

/-- The dict `get_export_url` builds from an ok response whose
`download_url` value is `dl` (`null` when the key is absent): `status` is
"completed" iff the url is truthy, else "processing". -/
def exportResult (dl : JVal) (jobId listId : String) : Obj :=
  [("download_url", dl),
   ("job_id", .str jobId),
   ("list_id", .str listId),
   ("status", .str (if jTruthy dl then "completed" else "processing"))]

/-- The completion test of `wait_for_export`:
`result.get("status") == "completed" and result.get("download_url")`. -/
def exportDone (result : Obj) : Bool :=
  (match assocGet "status" result with
   | some v => jvalBeq v (.str "completed")
   | none => false) &&
  jTruthy ((assocGet "download_url" result).getD .null)

/-- The message of the `TimeoutError` raised by `wait_for_export`. -/
def exportTimeoutMsg (jobId : String) (timeout : ℕ) (status : JVal) :
    String :=
  "Export job " ++ jobId ++ " did not complete within " ++ toString timeout ++
    " seconds. Last status: " ++ pyStr status

/-- The polling loop of `wait_for_export`, driven by the download_url
value each `get_export_url` call reports (`polls`) and the elapsed wall
time observed at each timeout check (`elapsed`). `none` is fuel
exhaustion of the model, not a behaviour of the code. -/
def waitAux (polls : ℕ → JVal) (elapsed : ℕ → ℚ) (timeout : ℕ)
    (jobId listId : String) : ℕ → ℕ → Option (Except String Obj)
  | 0, _ => none
  | fuel + 1, k =>
    if exportDone (exportResult (polls k) jobId listId) then
      some (.ok (exportResult (polls k) jobId listId))
    else if (timeout : ℚ) ≤ elapsed k then
      some (.error (exportTimeoutMsg jobId timeout
        ((assocGet "status" (exportResult (polls k) jobId listId)).getD .null)))
    else waitAux polls elapsed timeout jobId listId fuel (k + 1)

/-- `SlackListsClient.wait_for_export`, polling from the first call. -/
def waitForExport (polls : ℕ → JVal) (elapsed : ℕ → ℚ) (timeout : ℕ)
    (jobId listId : String) (fuel : ℕ) : Option (Except String Obj) :=
  waitAux polls elapsed timeout jobId listId fuel 0

theorem waitAux_ok_shape (polls : ℕ → JVal) (elapsed : ℕ → ℚ)
    (timeout : ℕ) (jobId listId : String) :
    ∀ (fuel k : ℕ) (r : Obj),
      waitAux polls elapsed timeout jobId listId fuel k = some (.ok r) →
      assocGet "status" r = some (.str "completed") ∧
      ∃ dl, assocGet "download_url" r = some dl ∧ jTruthy dl = true := by
  intro fuel
  induction fuel with
  | zero => intro k r h; cases h
  | succ fuel ih =>
    intro k r h
    rw [waitAux] at h
    by_cases hdone : exportDone (exportResult (polls k) jobId listId)
    · rw [if_pos hdone] at h
      cases h
      rw [exportDone] at hdone
      simp only [Bool.and_eq_true] at hdone
      refine ⟨?_, polls k, rfl, ?_⟩
      · have hs := hdone.1
        rw [show assocGet "status" (exportResult (polls k) jobId listId) =
          some (.str (if jTruthy (polls k) then "completed"
            else "processing")) from rfl] at hs ⊢
        by_cases ht : jTruthy (polls k)
        · rw [if_pos ht]
        · rw [if_neg ht] at hs
          cases hs
      · have hu := hdone.2
        exact hu
    · rw [if_neg hdone] at h
      by_cases htime : (timeout : ℚ) ≤ elapsed k
      · rw [if_pos htime] at h
        cases h
      · rw [if_neg htime] at h
        exact ih (k + 1) r h

theorem waitAux_error_shape (polls : ℕ → JVal) (elapsed : ℕ → ℚ)
    (timeout : ℕ) (jobId listId : String) :
    ∀ (fuel k : ℕ) (m : String),
      waitAux polls elapsed timeout jobId listId fuel k = some (.error m) →
      ∃ j, (timeout : ℚ) ≤ elapsed j ∧
        exportDone (exportResult (polls j) jobId listId) = false ∧
        m = exportTimeoutMsg jobId timeout
          (.str (if jTruthy (polls j) then "completed" else "processing")) := by
  intro fuel
  induction fuel with
  | zero => intro k m h; cases h
  | succ fuel ih =>
    intro k m h
    rw [waitAux] at h
    by_cases hdone : exportDone (exportResult (polls k) jobId listId)
    · rw [if_pos hdone] at h
      cases h
    · rw [if_neg hdone] at h
      by_cases htime : (timeout : ℚ) ≤ elapsed k
      · rw [if_pos htime] at h
        cases h
        exact ⟨k, htime, by simpa using hdone, rfl⟩
      · rw [if_neg htime] at h
        exact ih (k + 1) m h

/-- C8: whenever the wait loop returns a result, the result's status is
"completed" and its `download_url` is present and truthy (it never
returns a result lacking a download url); whenever it raises, the raised
`TimeoutError` message carries the last observed job status, raised at a
check where the caller-supplied timeout had elapsed without completion;
and once the timeout has elapsed, the very next check terminates the loop
one way or the other. -/
theorem export_wait_semantics :
    (∀ (polls : ℕ → JVal) (elapsed : ℕ → ℚ) (timeout : ℕ)
        (jobId listId : String) (fuel : ℕ) (r : Obj),
        waitForExport polls elapsed timeout jobId listId fuel = some (.ok r) →
        assocGet "status" r = some (.str "completed") ∧
        ∃ dl, assocGet "download_url" r = some dl ∧ jTruthy dl = true) ∧
    (∀ (polls : ℕ → JVal) (elapsed : ℕ → ℚ) (timeout : ℕ)
        (jobId listId : String) (fuel : ℕ) (m : String),
        waitForExport polls elapsed timeout jobId listId fuel =
          some (.error m) →
        ∃ j, (timeout : ℚ) ≤ elapsed j ∧
          exportDone (exportResult (polls j) jobId listId) = false ∧
          m = exportTimeoutMsg jobId timeout
            (.str (if jTruthy (polls j) then "completed"
              else "processing"))) ∧
    (∀ (polls : ℕ → JVal) (elapsed : ℕ → ℚ) (timeout : ℕ)
        (jobId listId : String) (fuel k : ℕ),
        (timeout : ℚ) ≤ elapsed k →
        waitAux polls elapsed timeout jobId listId (fuel + 1) k ≠ none) := by
  refine ⟨?_, ?_, ?_⟩
  · intro polls elapsed timeout jobId listId fuel r h
    exact waitAux_ok_shape polls elapsed timeout jobId listId fuel 0 r h
  · intro polls elapsed timeout jobId listId fuel m h
    exact waitAux_error_shape polls elapsed timeout jobId listId fuel 0 m h
  · intro polls elapsed timeout jobId listId fuel k htime
    rw [waitAux]
    by_cases hdone : exportDone (exportResult (polls k) jobId listId)
    · rw [if_pos hdone]
      intro h; cases h
    · rw [if_neg hdone, if_pos htime]
      intro h; cases h

/-- C8 witness: a job that reports a processing status once and then a
completed download url returns the completed result with its url, under a
30 second budget whose clock never reaches the timeout. -/
theorem export_wait_semantics_witness :
    assocGet "status"
        (exportResult (JVal.str "https://e.example/dl") "J1" "F1") =
      some (JVal.str "completed") ∧
    ∃ dl, assocGet "download_url"
        (exportResult (JVal.str "https://e.example/dl") "J1" "F1") =
        some dl ∧ jTruthy dl = true :=
  export_wait_semantics.1
    (fun _ => JVal.str "https://e.example/dl") (fun _ => 0) 30 "J1" "F1" 1
    (exportResult (JVal.str "https://e.example/dl") "J1" "F1") (by rfl)

/-- C6: the client does **not** resolve a structured
`{"channel_id", "ts"}` message object to a permalink URL — normalization
merely wraps the raw object in an array, although the repository's own
tests (`test_message_field_structured_to_url`) require
`["https://myteam.slack.com/archives/C03HDDKH82J/p1770618111689629"]` and
the tool documentation promises "auto-converted to URL". The element left
in the array is the raw object, not a URL string. -/
theorem message_structured_not_resolved :
    normalizeField
        [("column_id", JVal.str "Col123"),
         ("message", JVal.obj
           [("channel_id", JVal.str "C03HDDKH82J"),
            ("ts", JVal.str "1770618111.689629")])] =
      [("column_id", JVal.str "Col123"),
       ("message", JVal.arr [JVal.obj
         [("channel_id", JVal.str "C03HDDKH82J"),
          ("ts", JVal.str "1770618111.689629")]])] ∧
    JVal.isStr (JVal.obj
      [("channel_id", JVal.str "C03HDDKH82J"),
       ("ts", JVal.str "1770618111.689629")]) = false ∧
    JVal.isStr (JVal.str
      "https://myteam.slack.com/archives/C03HDDKH82J/p1770618111689629") =
      true :=
  ⟨rfl, rfl, rfl⟩

end SlackLists
